import Mathlib

/-!
Verification of the Tool Adaptation Layer of an MCP REPL shell.

This file gives a shallow embedding of the core subsystems of the repository:

* the Value Bridge (`src/commands/utils.rs` and `src/commands/call_tool.rs`):
  conversions between the shell's value model and JSON;
* the Schema Mapper (`src/commands/tool_mapper.rs`): `map_tool_to_signature`
  and the call-site binder `map_call_args_to_tool_params`;
* the Tool Adapter's run callback (`src/commands/mcp_tools.rs`);
* the MCP client wrapper `McpClient::call_tool` (`src/mcp.rs`);
* the registry `McpClientManager` (`src/mcp_manager.rs`).

Modelling conventions, used consistently below:

* Rust `f64` is modelled by the inductive `F64`: a finite double carrying its
  exact rational value, or one of the non-finite values `inf`, `negInf`, `nan`.
  The decimal rendering of finite doubles and IEEE rounding of large integers
  are not modelled bit-exactly (`F64.toDisplay` on `finite`, `f64OfInt`); no
  theorem below depends on those values, only on finiteness distinctions,
  which the model captures exactly.
* `serde_json::Number` is modelled by `JNumber` with the three variants the
  crate uses (`PosInt`/`NegInt`/`Float`); `serde_json::Value` by `Json`, with
  objects as ordered association lists (the crate's map preserves the stored
  order when iterated; order-sensitive theorems hold for the sorted map too).
* `nu_protocol::Value` is modelled by `NuValue`.  External payload types that
  the repository only observes through `Display` (dates, ranges) are modelled
  by their rendered string; `Span` metadata, which the code threads through
  unchanged for error reporting, is dropped.
* Fallible Rust functions returning `Result<T, E>` become `Except McpError T`
  (or `Except String T` for `anyhow`-typed errors).
-/

/-- Model of a Rust `f64` as the repository observes it: either a finite
double carrying its exact value, or one of the non-finite values. -/
inductive F64 where
  | finite (val : ℚ)
  | inf
  | negInf
  | nan
deriving DecidableEq, Repr

/-- Finiteness test, matching `f64::is_finite` / what `Number::from_f64`
checks. -/
def F64.isFinite : F64 → Bool
  | .finite _ => true
  | .inf => false
  | .negInf => false
  | .nan => false

/-- Rust `Display` rendering of an `f64`.  The non-finite renderings are
exact; the rendering of finite doubles (shortest round-trip decimal) is
approximated by the rational's `toString`, and no theorem depends on it. -/
def F64.toDisplay : F64 → String
  | .finite q => toString q
  | .inf => "inf"
  | .negInf => "-inf"
  | .nan => "NaN"

/-- Model of `serde_json::Number`: the crate stores a `u64`, an `i64` that is
negative, or an `f64` (which is always finite, since `from_f64` rejects
non-finite values and the parser never produces them). -/
inductive JNumber where
  | posInt (n : Nat)
  | negInt (n : Int)
  | float (val : ℚ)
deriving DecidableEq, Repr

def i64Max : Int := 2 ^ 63 - 1

def i64Min : Int := -(2 ^ 63)

def u64Max : Nat := 2 ^ 64 - 1

/-- Invariants `serde_json::Number` maintains by construction: `PosInt` holds
a `u64`, `NegInt` holds a negative `i64`. -/
def JNumber.wf : JNumber → Bool
  | .posInt n => n ≤ u64Max
  | .negInt n => i64Min ≤ n && n < 0
  | .float _ => true

/-- `serde_json::Number::from(i: i64)`: non-negative values are stored as
`PosInt`, negative ones as `NegInt`. -/
def jNumberFromInt (i : Int) : JNumber :=
  if i < 0 then .negInt i else .posInt i.toNat

/-- `serde_json::Number::from_f64`: succeeds exactly on finite doubles. -/
def serdeNumberFromF64 : F64 → Option JNumber
  | .finite q => some (.float q)
  | .inf => none
  | .negInf => none
  | .nan => none

/-- `serde_json::Number::as_i64`: an in-range `PosInt` or any `NegInt`;
float-backed numbers are never reported as `i64`. -/
def jNumberAsI64 : JNumber → Option Int
  | .posInt n => if (n : Int) ≤ i64Max then some (n : Int) else none
  | .negInt n => some n
  | .float _ => none

/-- Conversion `i as f64` used by `Number::as_f64` on the integer variants.
The result is always finite (`u64::MAX < f64::MAX`); IEEE rounding of values
above 2^53 is not modelled, and no theorem depends on the rounded value. -/
def f64OfInt (i : Int) : F64 := .finite (i : ℚ)

/-- `serde_json::Number::as_f64`: total on all three variants. -/
def jNumberAsF64 : JNumber → Option F64
  | .posInt n => some (f64OfInt (n : Int))
  | .negInt n => some (f64OfInt n)
  | .float q => some (.finite q)

/-- `Display` of a `serde_json::Number` (used only inside an error message on
a branch that `jNumberAsF64` being total makes unreachable). -/
def jNumberDisplay : JNumber → String
  | .posInt n => toString n
  | .negInt n => toString n
  | .float q => toString q

/-- Model of `serde_json::Value`.  Objects are ordered association lists with
the keys distinct by construction in the crate. -/
inductive Json where
  | null
  | bool (b : Bool)
  | num (n : JNumber)
  | str (s : String)
  | arr (elts : List Json)
  | obj (fields : List (String × Json))

/-- `serde_json::Value::as_object`. -/
def jsonAsObject : Json → Option (List (String × Json))
  | .obj fields => some fields
  | _ => none

/-- Key membership in a modelled `serde_json::Map`. -/
def serdeMapContains (m : List (String × Json)) (k : String) : Bool :=
  m.any (fun p => p.1 == k)

/-- Lookup in a modelled `serde_json::Map`. -/
def serdeMapGet (m : List (String × Json)) (k : String) : Option Json :=
  (m.find? (fun p => p.1 == k)).map (fun p => p.2)

/-- `serde_json::Map::insert`: replace in place if the key is present,
otherwise append. -/
def serdeMapInsert (m : List (String × Json)) (k : String) (v : Json) :
    List (String × Json) :=
  match m with
  | [] => [(k, v)]
  | (k', v') :: rest =>
    if k' == k then (k, v) :: rest else (k', v') :: serdeMapInsert rest k v

/-- Model of `nu_protocol::ShellError` as this repository constructs it: every
error site uses `GenericError` with an empty `msg`, no inner errors and a
span (dropped here).  `McpError` in `src/util/error.rs` is a newtype around
a boxed `ShellError` with identical content, so one type models both. -/
structure McpError where
  error : String
  msg : String
  help : Option String
deriving DecidableEq, Repr

/-- `generic_error` from `src/util/error.rs`. -/
def generic_error (message : String) (help : Option String) : McpError :=
  ⟨message, "", help⟩

/-- One member of a `nu_protocol::CellPath`: the `Int` member holds a `usize`
that the conversions cast with `as u64`. -/
inductive PathMember where
  | str (val : String)
  | int (val : Nat)
deriving DecidableEq, Repr

/-- Model of `nu_protocol::Value` restricted to what this repository
observes.  `duration` carries the `i64` nanosecond count, `filesize` the
`i64` byte count; `date` and `range` carry the string their `Display`
produces, since the code only ever renders or discards them; `glob` drops the
`no_expand` flag the code never reads; `closure` and `custom` carry an opaque
tag, since the code discards their payload. -/
inductive NuValue where
  | bool (val : Bool)
  | int (val : Int)
  | float (val : F64)
  | filesize (val : Int)
  | duration (val : Int)
  | date (rendered : String)
  | string (val : String)
  | glob (val : String)
  | range (rendered : String)
  | binary (val : List Nat)
  | cellPath (members : List PathMember)
  | list (vals : List NuValue)
  | record (fields : List (String × NuValue))
  | nothing
  | closure (tag : Nat)
  | custom (tag : Nat)
  | error (err : McpError)

/-- Conversion of one `PathMember` to JSON, shared verbatim by both
`convert_nu_value_to_json_value` implementations. -/
def pathMemberToJson : PathMember → Json
  | .str val => .str val
  | .int val => .num (.posInt val)

mutual

/-- `convert_json_value_to_nu_value` from `src/commands/utils.rs`
(lines 31-91): the JSON-to-shell direction of the Value Bridge. -/
def convert_json_value_to_nu_value : Json → Except McpError NuValue
  | .null => .ok .nothing
  | .bool b => .ok (.bool b)
  | .num n =>
    match jNumberAsI64 n with
    | some val => .ok (.int val)
    | none =>
      match jNumberAsF64 n with
      | some val => .ok (.float val)
      | none =>
        .error (generic_error
          ("Unexpected numeric value, cannot convert " ++ jNumberDisplay n ++
            " into i64 or f64") none)
  | .str val => .ok (.string val)
  | .arr a =>
    match convert_json_list_to_nu a with
    | .ok t => .ok (.list t)
    | .error e => .error e
  | .obj o =>
    match convert_json_fields_to_nu o with
    | .ok fields => .ok (.record fields)
    | .error e => .error e

/-- The element-wise `collect::<Result<Vec<Value>>>` over a JSON array in
`convert_json_value_to_nu_value`: left to right, stopping at the first
error. -/
def convert_json_list_to_nu : List Json → Except McpError (List NuValue)
  | [] => .ok []
  | x :: xs => do
    let v ← convert_json_value_to_nu_value x
    let vs ← convert_json_list_to_nu xs
    pure (v :: vs)

/-- The cols/vals loop over a JSON object in `convert_json_value_to_nu_value`
(the `Record::from_raw_cols_vals(..).unwrap()` cannot fail: both vectors are
built in lockstep). -/
def convert_json_fields_to_nu :
    List (String × Json) → Except McpError (List (String × NuValue))
  | [] => .ok []
  | (k, v) :: rest => do
    let nv ← convert_json_value_to_nu_value v
    let nvs ← convert_json_fields_to_nu rest
    pure ((k, nv) :: nvs)

end

mutual

/-- `convert_nu_value_to_json_value` from `src/commands/utils.rs`
(lines 94-151): the shell-to-JSON direction of the Value Bridge.  Match arms
in source order. -/
def convert_nu_value_to_json_value : NuValue → Except McpError Json
  | .bool val => .ok (.bool val)
  | .filesize val => .ok (.num (jNumberFromInt val))
  | .duration val => .ok (.str (toString val))
  | .date rendered => .ok (.str rendered)
  | .float val =>
    match serdeNumberFromF64 val with
    | some num => .ok (.num num)
    | none =>
      .error (generic_error
        ("Unexpected numeric value, cannot convert " ++ F64.toDisplay val ++
          " from f64") none)
  | .int val => .ok (.num (jNumberFromInt val))
  | .range rendered => .ok (.str rendered)
  | .glob val => .ok (.str val)
  | .string val => .ok (.str val)
  | .nothing => .ok .null
  | .custom _ => .ok .null
  | .closure _ => .ok .null
  | .cellPath members => .ok (.arr (members.map pathMemberToJson))
  | .list vals =>
    match json_list vals with
    | .ok elts => .ok (.arr elts)
    | .error e => .error e
  | .error err => .error err
  | .binary val => .ok (.arr (val.map (fun x => Json.num (.posInt x))))
  | .record fields =>
    match nuRecordToJsonMap [] fields with
    | .ok m => .ok (.obj m)
    | .error e => .error e

/-- `json_list` from `src/commands/utils.rs` (lines 153-161). -/
def json_list : List NuValue → Except McpError (List Json)
  | [] => .ok []
  | v :: rest => do
    let j ← convert_nu_value_to_json_value v
    let out ← json_list rest
    pure (j :: out)

/-- The record loop of `convert_nu_value_to_json_value`: iterate the record
fields in order, inserting each converted value into the accumulated
`serde_json::Map`. -/
def nuRecordToJsonMap (acc : List (String × Json)) :
    List (String × NuValue) → Except McpError (List (String × Json))
  | [] => .ok acc
  | (k, v) :: rest =>
    match convert_nu_value_to_json_value v with
    | .ok j => nuRecordToJsonMap (serdeMapInsert acc k j) rest
    | .error e => .error e

end

namespace CallToolMod

/-!
The second, independent implementation of the shell-to-JSON conversion, in
`src/commands/call_tool.rs` (lines 232-301).  It differs from the one in
`src/commands/utils.rs` in its `Range` arm (`null` instead of the rendered
string) and in returning the `ShellError` unboxed; everything else is
line-for-line the same code.
-/

mutual

/-- `convert_nu_value_to_json_value` from `src/commands/call_tool.rs`
(lines 232-291).  Match arms in source order. -/
def convert_nu_value_to_json_value : NuValue → Except McpError Json
  | .bool val => .ok (.bool val)
  | .filesize val => .ok (.num (jNumberFromInt val))
  | .duration val => .ok (.str (toString val))
  | .date rendered => .ok (.str rendered)
  | .float val =>
    match serdeNumberFromF64 val with
    | some num => .ok (.num num)
    | none =>
      .error (generic_error
        ("Unexpected numeric value, cannot convert " ++ F64.toDisplay val ++
          " from f64") none)
  | .int val => .ok (.num (jNumberFromInt val))
  | .nothing => .ok .null
  | .string val => .ok (.str val)
  | .cellPath members => .ok (.arr (members.map pathMemberToJson))
  | .list vals =>
    match json_list vals with
    | .ok elts => .ok (.arr elts)
    | .error e => .error e
  | .error err => .error err
  | .binary val => .ok (.arr (val.map (fun x => Json.num (.posInt x))))
  | .record fields =>
    match nuRecordToJsonMap [] fields with
    | .ok m => .ok (.obj m)
    | .error e => .error e
  | .custom _ => .ok .null
  | .range _ => .ok .null
  | .closure _ => .ok .null
  | .glob val => .ok (.str val)

/-- `json_list` from `src/commands/call_tool.rs` (lines 293-301). -/
def json_list : List NuValue → Except McpError (List Json)
  | [] => .ok []
  | v :: rest => do
    let j ← convert_nu_value_to_json_value v
    let out ← json_list rest
    pure (j :: out)

/-- The record loop of the `call_tool.rs` conversion. -/
def nuRecordToJsonMap (acc : List (String × Json)) :
    List (String × NuValue) → Except McpError (List (String × Json))
  | [] => .ok acc
  | (k, v) :: rest =>
    match convert_nu_value_to_json_value v with
    | .ok j => nuRecordToJsonMap (serdeMapInsert acc k j) rest
    | .error e => .error e

end

end CallToolMod

mutual

/-- A shell value that contains no `Range` anywhere: the fragment on which
the two shell-to-JSON implementations coincide. -/
def rangeFree : NuValue → Bool
  | .range _ => false
  | .list vals => rangeFreeList vals
  | .record fields => rangeFreeFields fields
  | _ => true

def rangeFreeList : List NuValue → Bool
  | [] => true
  | v :: vs => rangeFree v && rangeFreeList vs

def rangeFreeFields : List (String × NuValue) → Bool
  | [] => true
  | (_, v) :: fs => rangeFree v && rangeFreeFields fs

end

/-!
Schema Mapper (`src/commands/tool_mapper.rs`).
-/

/-- Model of `rmcp::model::Tool` as the mapper reads it: the name, the
optional description, and `schema_as_json_value()`, the input JSON-Schema. -/
structure Tool where
  name : String
  description : Option String
  inputSchema : Json

/-- Model of `nu_protocol::SyntaxShape` restricted to the shapes the mapper
produces.  `table` and `record` stand for `Table(vec![])` and
`Record(vec![])`. -/
inductive SyntaxShape where
  | string
  | int
  | number
  | boolean
  | dateTime
  | nothing
  | any
  | list (inner : SyntaxShape)
  | table
  | record
deriving DecidableEq, Repr

/-- One positional parameter of a `nu_protocol::Signature`. -/
structure PositionalArg where
  name : String
  shape : SyntaxShape
  desc : String
deriving DecidableEq, Repr

/-- One named parameter (flag) of a `nu_protocol::Signature`; `arg = none`
models a switch (`Signature::switch`), `arg = some shape` a valued flag
(`Signature::named`); the repository never sets short names. -/
structure NamedFlag where
  long : String
  arg : Option SyntaxShape
  desc : String
deriving DecidableEq, Repr

/-- Model of `nu_protocol::Signature` restricted to the fields the builder
calls in `map_tool_to_signature` touch: `required(..)` appends to
`requiredPositional`, `optional(..)` to `optionalPositional`, `switch(..)`
and `named(..)` to `named`. -/
structure Signature where
  name : String
  category : String
  requiredPositional : List PositionalArg
  optionalPositional : List PositionalArg
  named : List NamedFlag
deriving DecidableEq, Repr

/-- `get_schema_properties` (tool_mapper.rs lines 167-178): the `properties`
object of the schema, if present. -/
def get_schema_properties (tool : Tool) : Option (List (String × Json)) :=
  match tool.inputSchema with
  | .obj fields =>
    match serdeMapGet fields "properties" with
    | some (.obj properties) => some properties
    | _ => none
  | _ => none

/-- `is_parameter_required` (tool_mapper.rs lines 180-197): membership of the
parameter name in the schema's `required` array.  The Rust function returns
`Result` but never errs. -/
def is_parameter_required (tool : Tool) (param : String) : Bool :=
  match tool.inputSchema with
  | .obj fields =>
    match serdeMapGet fields "required" with
    | some (.arr required) =>
      required.any (fun v =>
        match v with
        | .str s => s == param
        | _ => false)
    | _ => false
  | _ => false

/-- `is_boolean_parameter` (tool_mapper.rs lines 157-165). -/
def is_boolean_parameter (param_schema : Json) : Bool :=
  match param_schema with
  | .obj fields =>
    match serdeMapGet fields "type" with
    | some (.str t) => t == "boolean"
    | _ => false
  | _ => false

/-- `get_parameter_description` (tool_mapper.rs lines 199-210). -/
def get_parameter_description (param_schema : Json) : Option String :=
  match param_schema with
  | .obj fields =>
    match serdeMapGet fields "description" with
    | some (.str desc) => some desc
    | _ => none
  | _ => none

/-- The enum-values filter in `extract_useful_schema_info`: keep the string
entries, quoted. -/
def enumValueStrings (vals : List Json) : List String :=
  vals.filterMap (fun v =>
    match v with
    | .str s => some ("\"" ++ s ++ "\"")
    | _ => none)

/-- The `format`/`pattern`/bounds/type-kind cascade of
`extract_useful_schema_info` after the `enum` check. -/
def extractFormatInfo (fields : List (String × Json)) (param_name : String) :
    Option String :=
  match serdeMapGet fields "format" with
  | some (.str format) => some (param_name ++ " in " ++ format ++ " format")
  | _ =>
    match serdeMapGet fields "pattern" with
    | some (.str pattern) => some ("Must match pattern: " ++ pattern)
    | _ =>
      let minC :=
        match serdeMapGet fields "minimum" with
        | some (.num m) => ["min: " ++ jNumberDisplay m]
        | _ => []
      let maxC :=
        match serdeMapGet fields "maximum" with
        | some (.num m) => ["max: " ++ jNumberDisplay m]
        | _ => []
      let constraints := minC ++ maxC
      if !constraints.isEmpty then
        some ("Constraints: " ++ String.intercalate ", " constraints)
      else
        match serdeMapGet fields "type" with
        | some (.str t) =>
          if t == "object" then some "JSON object parameter"
          else if t == "array" then some "List of values"
          else none
        | _ => none

/-- `extract_useful_schema_info` (tool_mapper.rs lines 213-269): fallback
description synthesised from `enum`, `format`, `pattern`, bounds, or the type
kind. -/
def extract_useful_schema_info (param_schema : Json) (param_name : String) :
    Option String :=
  match param_schema with
  | .obj fields =>
    match serdeMapGet fields "enum" with
    | some (.arr enum_values) =>
      let values := enumValueStrings enum_values
      if !values.isEmpty then
        some ("Valid values: " ++ String.intercalate ", " values)
      else
        extractFormatInfo fields param_name
    | _ => extractFormatInfo fields param_name
  | _ => none

/-- `map_json_schema_to_syntax_shape` (tool_mapper.rs lines 272-348).  The
Rust function returns `Result` but never errs. -/
def map_json_schema_to_syntax_shape : Json → SyntaxShape
  | .obj fields =>
    (match serdeMapGet fields "type" with
     | some (.str t) =>
       if t == "string" then
         if serdeMapContains fields "enum" then SyntaxShape.string
         else
           match serdeMapGet fields "format" with
           | some (.str format) =>
             if format == "date-time" then SyntaxShape.dateTime
             else if format == "date" then SyntaxShape.dateTime
             else if format == "time" then SyntaxShape.dateTime
             else SyntaxShape.string
           | _ => SyntaxShape.string
       else if t == "number" then SyntaxShape.number
       else if t == "integer" then SyntaxShape.int
       else if t == "boolean" then SyntaxShape.boolean
       else if t == "array" then
         match hit : serdeMapGet fields "items" with
         | some items =>
           match map_json_schema_to_syntax_shape items with
           | SyntaxShape.record => SyntaxShape.table
           | item_shape => SyntaxShape.list item_shape
         | none => SyntaxShape.list SyntaxShape.any
       else if t == "object" then
         if serdeMapContains fields "properties" then SyntaxShape.record
         else SyntaxShape.any
       else if t == "null" then SyntaxShape.nothing
       else SyntaxShape.any
     | _ =>
       if serdeMapContains fields "oneOf" || serdeMapContains fields "anyOf"
           || serdeMapContains fields "allOf" then
         SyntaxShape.any
       else
         SyntaxShape.any)
  | _ => SyntaxShape.any
termination_by j => sizeOf j
decreasing_by
  unfold serdeMapGet at hit
  cases hf : fields.find? (fun p => p.1 == "items") with
  | none => rw [hf] at hit; exact absurd hit (by simp)
  | some p =>
    rw [hf] at hit
    have hmem : p ∈ fields := List.mem_of_find?_eq_some hf
    have h1 : sizeOf p < sizeOf fields := List.sizeOf_lt_of_mem hmem
    have h2 : items = p.2 := by
      simp only [Option.map_some', Option.some.injEq] at hit
      exact hit.symm
    have h3 : sizeOf p.2 < sizeOf p := by
      obtain ⟨a, b⟩ := p
      simp only [Prod.mk.sizeOf_spec]
      have ha : 0 < sizeOf a := by cases a; simp_arith
      omega
    rw [h2]
    simp only [Json.obj.sizeOf_spec]
    omega

/-- The positional-count rule shared verbatim by `map_tool_to_signature`
(tool_mapper.rs lines 52-66) and `map_call_args_to_tool_params`
(lines 406-420), applied to the property list each of them works on. -/
def positional_count_rules (tool : Tool) (prop_vec : List (String × Json)) :
    Nat :=
  let required_params := prop_vec.filter (fun p => is_parameter_required tool p.1)
  let optional_params := prop_vec.filter (fun p => !is_parameter_required tool p.1)
  if prop_vec.length == 1 then 1
  else if required_params.length == 2 then 2
  else if required_params.length == 1 && !optional_params.isEmpty then 1
  else 0

/-- The positional-argument loop of `map_tool_to_signature` (lines 69-102),
iteration `i`.  Faithful to the misplaced brace in the source: in the
`total_param_count == 1` branch the parameter name and schema are assigned
but the `signature.required/optional` calls live inside the *other* branch,
so the loop adds nothing for a single-parameter tool. -/
def signaturePositionalStep (tool : Tool) (prop_vec required_params :
    List (String × Json)) (total_param_count : Nat) (sig : Signature)
    (i : Nat) : Signature :=
  if total_param_count == 1 then
    let _dead_assignment := prop_vec.get? 0
    sig
  else if h : i < required_params.length then
    let param := required_params.get ⟨i, h⟩
    let param_name := param.1
    let param_schema := param.2
    let description :=
      (get_parameter_description param_schema).getD (param_name ++ " parameter")
    let syntax_shape := map_json_schema_to_syntax_shape param_schema
    if is_parameter_required tool param_name then
      { sig with requiredPositional :=
          sig.requiredPositional ++ [⟨param_name, syntax_shape, description⟩] }
    else
      { sig with optionalPositional :=
          sig.optionalPositional ++ [⟨param_name, syntax_shape, description⟩] }
  else
    sig

/-- The flag loop body of `map_tool_to_signature` (lines 104-151). -/
def signatureFlagStep (tool : Tool) (required_params : List (String × Json))
    (positional_count : Nat) (sig : Signature) (param : String × Json) :
    Signature :=
  let param_name := param.1
  let param_schema := param.2
  if positional_count > 0 &&
      (required_params.take positional_count).any (fun p => p.1 == param_name)
  then
    sig
  else
    let description :=
      ((get_parameter_description param_schema).orElse (fun _ =>
        extract_useful_schema_info param_schema param_name)).getD
        (param_name ++ " parameter")
    let syntax_shape := map_json_schema_to_syntax_shape param_schema
    let is_required := is_parameter_required tool param_name
    if !is_required && is_boolean_parameter param_schema then
      { sig with named := sig.named ++ [⟨param_name, none, description⟩] }
    else
      { sig with named :=
          sig.named ++ [⟨param_name, some syntax_shape, description⟩] }

/-- `map_tool_to_signature` (tool_mapper.rs lines 17-155).  The Rust function
returns `Result` but never errs; debug printing is dropped. -/
def map_tool_to_signature (tool : Tool) (category : String) : Signature :=
  let sig : Signature := ⟨tool.name, category, [], [], []⟩
  match get_schema_properties tool with
  | none => sig
  | some schema_props =>
    let prop_vec := schema_props
    let required_params :=
      prop_vec.filter (fun p => is_parameter_required tool p.1)
    let total_param_count := prop_vec.length
    let positional_count := positional_count_rules tool prop_vec
    let sig :=
      (List.range positional_count).foldl
        (signaturePositionalStep tool prop_vec required_params total_param_count)
        sig
    prop_vec.foldl (signatureFlagStep tool required_params positional_count) sig

/-!
The call-site binder `map_call_args_to_tool_params`
(tool_mapper.rs lines 372-475).
-/

/-- Model of the evaluated invocation the shell engine hands the run
callback (`nu_protocol::engine::Call` plus the `nu_engine::CallExt`
accessors): the evaluated positional arguments in call order, and the
evaluated flag arguments by name. -/
structure EvaluatedCall where
  positional : List NuValue
  flags : List (String × NuValue)

/-- `call.opt(engine_state, stack, i)`: the i-th evaluated positional, if
present (evaluation errors, which the binder's `if let Ok(Some(..))`
swallows, are not modelled). -/
def call_opt (call : EvaluatedCall) (i : Nat) : Option NuValue :=
  call.positional.get? i

/-- `call.get_flag(engine_state, stack, name)`: the evaluated value of the
named flag, if the call supplies it. -/
def call_get_flag (call : EvaluatedCall) (name : String) : Option NuValue :=
  (call.flags.find? (fun p => p.1 == name)).map (fun p => p.2)

/-- The required-first ordering the binder's `sort_by` uses: the comparator
`req2.cmp(&req1)` ranks required parameters before optional ones and ties
otherwise.  Rust's `sort_by` is a stable sort, modelled by Mathlib's (stable)
insertion sort. -/
def requiredRank (tool : Tool) (p : String × Json) : Nat :=
  if is_parameter_required tool p.1 then 0 else 1

/-- `prop_vec.sort_by(..)` in the binder (tool_mapper.rs lines 386-390):
stable sort bringing required parameters first. -/
def sortRequiredFirst (tool : Tool) (prop_vec : List (String × Json)) :
    List (String × Json) :=
  prop_vec.insertionSort (fun a b => requiredRank tool a ≤ requiredRank tool b)

/-- One iteration of the binder's positional loop (tool_mapper.rs
lines 423-457): read positional `i`, fall back to the same-named flag, insert
the converted value if either was present.  Conversion goes through the
`call_tool.rs` implementation (`super::call_tool::convert_nu_value_to_json_value`). -/
def binderPositionalStep (call : EvaluatedCall) (param_name : String)
    (i : Nat) (params : List (String × Json)) :
    Except McpError (List (String × Json)) :=
  match call_opt call i with
  | some value => do
    let json_value ← CallToolMod.convert_nu_value_to_json_value value
    pure (serdeMapInsert params param_name json_value)
  | none =>
    match call_get_flag call param_name with
    | some value => do
      let json_value ← CallToolMod.convert_nu_value_to_json_value value
      pure (serdeMapInsert params param_name json_value)
    | none => pure params

/-- The parameter the binder's positional loop selects at iteration `i`:
`prop_vec[0]` when the tool has a single parameter, else the i-th required
parameter (the final `else` is the loop's `continue`). -/
def binderPositionalName (prop_vec required_params : List (String × Json))
    (total_param_count i : Nat) : Option String :=
  if total_param_count == 1 then
    (prop_vec.get? 0).map (fun p => p.1)
  else if h : i < required_params.length then
    some (required_params.get ⟨i, h⟩).1
  else
    none

/-- One iteration of the binder's flag loop (tool_mapper.rs lines 460-471):
skip parameters already bound, then read a flag of that name. -/
def binderFlagStep (call : EvaluatedCall) (params : List (String × Json))
    (param : String × Json) : Except McpError (List (String × Json)) :=
  if serdeMapContains params param.1 then
    pure params
  else
    match call_get_flag call param.1 with
    | some value => do
      let json_value ← CallToolMod.convert_nu_value_to_json_value value
      pure (serdeMapInsert params param.1 json_value)
    | none => pure params

/-- `map_call_args_to_tool_params` (tool_mapper.rs lines 372-475): collect
the user-supplied arguments of one invocation into the JSON arguments object
for the tool.  Note the function inserts only what the call supplies: no arm
raises an error for a missing required parameter. -/
def map_call_args_to_tool_params (call : EvaluatedCall) (tool : Tool) :
    Except McpError (List (String × Json)) := do
  let params : List (String × Json) := []
  match get_schema_properties tool with
  | none => pure params
  | some properties =>
    let prop_vec := sortRequiredFirst tool properties
    let required_params :=
      prop_vec.filter (fun p => is_parameter_required tool p.1)
    let total_param_count := prop_vec.length
    let positional_count := positional_count_rules tool prop_vec
    let params ← (List.range positional_count).foldlM
      (fun params i =>
        match binderPositionalName prop_vec required_params total_param_count i with
        | some param_name => binderPositionalStep call param_name i params
        | none => pure params)
      params
    prop_vec.foldlM (binderFlagStep call) params

/-!
Tool Adapter run callback (`src/commands/mcp_tools.rs`, `create_tool_run_function`).
-/

/-- Model of `rmcp::model::ResourceContents`: the text variant's `uri` and
`mime_type`, and the blob variant's payload, are not read by the adapter
(the blob arm is a wildcard pattern), so only the text is carried. -/
inductive ResourceContents where
  | textResource (text : String)
  | blobResource
deriving DecidableEq, Repr

/-- Model of `rmcp::model::RawContent` (the `content.raw` of an annotated
content item): `image.data` is the base64 payload string whose `len()` the
adapter prints. -/
inductive RawContent where
  | text (text : String)
  | image (data : String) (mimeType : String)
  | resource (res : ResourceContents)
deriving DecidableEq, Repr

/-- The per-item conversion in the run callback's result loop
(mcp_tools.rs lines 206-240). -/
def contentToValue : RawContent → NuValue
  | .text text_content => .string text_content
  | .image data mime_type =>
    .string ("[Image: " ++ toString data.length ++ " bytes, type: " ++
      mime_type ++ "]")
  | .resource (.textResource text) => .string text
  | .resource .blobResource => .string "[Resource: Non-text resource]"

/-- The values vector the run callback accumulates over the returned content
items, in order (mcp_tools.rs lines 204-240). -/
def runCallbackValues : List RawContent → List NuValue
  | [] => []
  | content :: rest => contentToValue content :: runCallbackValues rest

/-- The run callback's reduction of a successful tool result to one pipeline
value (mcp_tools.rs lines 242-249): empty, singleton, or list. -/
def runCallbackResult (contents : List RawContent) : NuValue :=
  let values := runCallbackValues contents
  if values.isEmpty then .nothing
  else if values.length == 1 then values.headD .nothing
  else .list values

/-- The per-item mapping exactly as the specification states it, for
comparison with the embedded code: Text to its string, Image to
"[Image: N bytes, type: M]", text Resource to its text, blob Resource to
"[Resource: Non-text resource]". -/
def specContentItemValue : RawContent → NuValue
  | .text s => .string s
  | .image data mime =>
    .string ("[Image: " ++ toString data.length ++ " bytes, type: " ++
      mime ++ "]")
  | .resource (.textResource s) => .string s
  | .resource .blobResource => .string "[Resource: Non-text resource]"

/-!
MCP client wrapper (`src/mcp.rs`, `McpClient::call_tool`).
-/

/-- Model of `rmcp::model::CallToolRequestParam`: the request the wrapper
sends on the wire. -/
structure CallToolRequestParam where
  name : String
  arguments : Option (List (String × Json))

/-- Model of `rmcp::model::CallToolResult` as the wrapper reads it: the
ordered content items. -/
structure CallToolResult where
  content : List RawContent

/-- The fields of `McpClient` that `call_tool` reads: the tool list cached at
connect time (the debug flag only gates logging, which is not modelled). -/
structure McpClientState where
  tools : List Tool

/-- `McpClient::call_tool` (mcp.rs lines 262-301), instrumented with the list
of protocol requests it issues so that "no protocol call is made" is a
provable statement.  The remote side is the external protocol client, passed
as an oracle from requests to results; errors are `anyhow` strings, and
`.context(..)` prefixes the message. -/
def McpClient.call_tool (state : McpClientState)
    (remote : CallToolRequestParam → Except String CallToolResult)
    (tool_name : String) (params : Json) :
    List CallToolRequestParam × Except String (List RawContent) :=
  match state.tools.find? (fun t => t.name == tool_name) with
  | none => ([], .error ("Tool not found: " ++ tool_name))
  | some _tool =>
    let request : CallToolRequestParam :=
      ⟨tool_name, jsonAsObject params⟩
    match remote request with
    | .ok result => ([request], .ok result.content)
    | .error e => ([request], .error ("Failed to call tool: " ++ e))

/-!
Registry (`src/mcp_manager.rs`, `McpClientManager`).
-/

/-- The fields of `ReplClient` (`src/commands/utils.rs`): the namespace name,
the wrapped client state, and the debug flag. -/
structure ReplClient where
  name : String
  client : McpClientState
  debug : Bool

/-- A deterministic stand-in for the hash values a `std::collections::HashMap`
computes for its string keys: iteration order of the real map is a function
of these hashes (and of the probing they induce), never of insertion order. -/
def strHash (s : String) : Nat :=
  s.data.foldl (fun h c => (h * 31 + c.toNat) % 2 ^ 64) 5381

/-- Model of `std::collections::HashMap<String, Arc<ReplClient>>`: the
entries in insertion order, so that both the map's content and what
insertion-order-dependence would mean are expressible. -/
structure StdHashMap where
  entries : List (String × ReplClient)

/-- `HashMap::insert`: replace the value if the key is present, otherwise add
the entry. -/
def StdHashMap.insert (m : StdHashMap) (k : String) (v : ReplClient) :
    StdHashMap :=
  if m.entries.any (fun p => p.1 == k) then
    ⟨m.entries.map (fun p => if p.1 == k then (k, v) else p)⟩
  else
    ⟨m.entries ++ [(k, v)]⟩

/-- Iteration over the modelled `HashMap`.  The real map's iteration order is
unspecified and hash-dependent; it is modelled as the entries sorted by the
key's hash, which like the real order is determined by the keys and not by
the insertion sequence. -/
def StdHashMap.iterate (m : StdHashMap) : List (String × ReplClient) :=
  m.entries.insertionSort (fun a b => strHash a.1 ≤ strHash b.1)

/-- The `clients` field of `McpClientManager` (mcp_manager.rs lines 9-12). -/
structure McpClientManager where
  clients : StdHashMap

/-- `McpClientManager::new`. -/
def McpClientManager.new : McpClientManager := ⟨⟨[]⟩⟩

/-- `McpClientManager::register_client` (mcp_manager.rs lines 25-39)
restricted to the registry update (`self.clients.insert(name, client)`); the
engine-state tool registration it triggers is outside the registry. -/
def McpClientManager.register_client (m : McpClientManager) (name : String)
    (client : ReplClient) : McpClientManager :=
  ⟨m.clients.insert name client⟩

/-- `McpClientManager::get_clients` (mcp_manager.rs lines 68-71): a clone of
the map; enumerating it iterates in the map's order. -/
def McpClientManager.get_clients (m : McpClientManager) : StdHashMap :=
  m.clients


/-!
Well-formedness of modelled JSON values: the invariants every value built by
`serde_json` satisfies (distinct object keys, numbers in their variant's
range), under which the claims about real JSON inputs are stated.
-/

/-- Pairwise distinctness of a key list. -/
def keysDistinct : List String → Bool
  | [] => true
  | k :: ks => !(ks.contains k) && keysDistinct ks

mutual

/-- A modelled `Json` value that `serde_json` could actually represent. -/
def JsonWf : Json → Bool
  | .null => true
  | .bool _ => true
  | .num n => n.wf
  | .str _ => true
  | .arr elts => JsonListWf elts
  | .obj fields => keysDistinct (fields.map Prod.fst) && JsonFieldsWf fields

def JsonListWf : List Json → Bool
  | [] => true
  | x :: xs => JsonWf x && JsonListWf xs

def JsonFieldsWf : List (String × Json) → Bool
  | [] => true
  | (_, v) :: rest => JsonWf v && JsonFieldsWf rest

end

/-!
Theorems.  Helper lemmas come first; one theorem (plus witness or
counterexample where applicable) per specification claim follows.
-/

theorem contentToValue_eq_spec (c : RawContent) :
    contentToValue c = specContentItemValue c := by
  cases c with
  | text t => rfl
  | image d m => rfl
  | resource res => cases res <;> rfl

theorem runCallbackValues_eq_map (contents : List RawContent) :
    runCallbackValues contents = contents.map specContentItemValue := by
  induction contents with
  | nil => rfl
  | cons c rest ih =>
    simp [runCallbackValues, ih, contentToValue_eq_spec]

/-- C5 counterexample: the claim demands a typed error for every Closure
value, but the utils.rs conversion maps a Closure to JSON `null`. -/
theorem closure_converts_to_null_cex :
    convert_nu_value_to_json_value (.closure 0) = .ok .null := rfl

/-- C5 (amended): neither shell-to-JSON implementation ever fails on the
Closure, Custom or Range variants: utils.rs maps Closure and Custom to
`null` and Range to its rendered string, call_tool.rs maps all three to
`null`. -/
theorem closure_custom_range_never_error (c cu : Nat) (r : String) :
    convert_nu_value_to_json_value (.closure c) = .ok .null ∧
    convert_nu_value_to_json_value (.custom cu) = .ok .null ∧
    convert_nu_value_to_json_value (.range r) = .ok (.str r) ∧
    CallToolMod.convert_nu_value_to_json_value (.closure c) = .ok .null ∧
    CallToolMod.convert_nu_value_to_json_value (.custom cu) = .ok .null ∧
    CallToolMod.convert_nu_value_to_json_value (.range r) = .ok .null :=
  ⟨rfl, rfl, rfl, rfl, rfl, rfl⟩

/-- C7 counterexample: at `+inf` the conversion does error, but with the
message the code builds, not the message the claim states. -/
theorem nonfinite_float_error_message_cex :
    convert_nu_value_to_json_value (.float .inf) =
      .error (generic_error
        "Unexpected numeric value, cannot convert inf from f64" none) ∧
    "Unexpected numeric value, cannot convert inf from f64" ≠
      "float not representable in JSON" :=
  ⟨rfl, by decide⟩

/-- C7 (amended): the shell-to-JSON conversion of a Float yields a JSON
number exactly when the float is finite, and for a non-finite float yields
the typed error whose message is
`Unexpected numeric value, cannot convert {val} from f64`. -/
theorem float_to_json_iff_finite (f : F64) :
    ((∃ n, convert_nu_value_to_json_value (.float f) = .ok (.num n)) ↔
      f.isFinite = true) ∧
    (f.isFinite = false →
      convert_nu_value_to_json_value (.float f) =
        .error (generic_error
          ("Unexpected numeric value, cannot convert " ++ F64.toDisplay f ++
            " from f64") none)) := by
  cases f <;>
    simp [convert_nu_value_to_json_value, serdeNumberFromF64, F64.isFinite]

/-- C7 witness: the amended theorem applied at `+inf`. -/
theorem float_to_json_iff_finite_witness :
    F64.inf.isFinite = false ∧
    convert_nu_value_to_json_value (.float .inf) =
      .error (generic_error
        ("Unexpected numeric value, cannot convert " ++ F64.toDisplay .inf ++
          " from f64") none) :=
  ⟨rfl, (float_to_json_iff_finite .inf).2 rfl⟩

/-- C6: on a successful tool call the run callback reduces the content items
to Nothing (none), the single mapped item (one), or the list of mapped items
in order, each item mapped as the specification states. -/
theorem run_callback_reduces_content_items (contents : List RawContent) :
    runCallbackResult contents =
      match contents with
      | [] => NuValue.nothing
      | [item] => specContentItemValue item
      | items => NuValue.list (items.map specContentItemValue) := by
  match contents with
  | [] => rfl
  | [item] =>
    simp [runCallbackResult, runCallbackValues_eq_map]
  | a :: b :: rest =>
    simp [runCallbackResult, runCallbackValues_eq_map]

/-- C1 (code bug): for a tool whose schema has exactly one property the
mapper's own rule 1 (doc comment, tool_mapper.rs lines 12-16) and the
specification say that sole parameter becomes a positional argument.
Because the `signature.required/optional` calls sit inside the other branch
of the misplaced brace (lines 74-101), the produced signature instead
contains a required sole parameter nowhere at all, and an optional sole
parameter only as a flag. -/
theorem single_parameter_tool_signature_drops_parameter :
    map_tool_to_signature
      ⟨"read", none,
        .obj [("properties", .obj [("path", .obj [("type", .str "string")])]),
              ("required", .arr [.str "path"])]⟩ "tool" =
      ⟨"read", "tool", [], [], []⟩ ∧
    map_tool_to_signature
      ⟨"echo", none,
        .obj [("properties", .obj [("msg", .obj [("type", .str "string")])])]⟩
      "tool" =
      ⟨"echo", "tool", [], [],
        [⟨"msg", some .string, "msg parameter"⟩]⟩ := by
  refine ⟨rfl, ?_⟩
  simp [map_tool_to_signature, get_schema_properties, serdeMapGet,
    positional_count_rules, is_parameter_required, signatureFlagStep,
    signaturePositionalStep, List.range_succ,
    get_parameter_description, extract_useful_schema_info, extractFormatInfo,
    map_json_schema_to_syntax_shape, serdeMapContains, is_boolean_parameter,
    enumValueStrings, List.find?]

/-- C8: `call_tool` on a name absent from the cached tool list returns the
typed not-found error and issues no protocol request; on a cached name it
issues exactly one request whose arguments are the JSON arguments viewed as
an object, and on remote success returns the response content sequence.
(The Rust method takes `&self`, so the cached state cannot change.) -/
theorem call_tool_validates_cached_name (state : McpClientState)
    (remote : CallToolRequestParam → Except String CallToolResult)
    (tool_name : String) (params : Json) :
    (state.tools.find? (fun t => t.name == tool_name) = none →
      McpClient.call_tool state remote tool_name params =
        ([], .error ("Tool not found: " ++ tool_name))) ∧
    (∀ t, state.tools.find? (fun t => t.name == tool_name) = some t →
      (McpClient.call_tool state remote tool_name params).1 =
        [⟨tool_name, jsonAsObject params⟩] ∧
      ∀ result, remote ⟨tool_name, jsonAsObject params⟩ = .ok result →
        (McpClient.call_tool state remote tool_name params).2 =
          .ok result.content) := by
  constructor
  · intro h
    simp [McpClient.call_tool, h]
  · intro t ht
    constructor
    · simp only [McpClient.call_tool, ht]
      cases remote ⟨tool_name, jsonAsObject params⟩ <;> rfl
    · intro result hres
      simp [McpClient.call_tool, ht, hres]

/-- C8 witness: the not-found branch on an empty cache, and the success
branch on a one-tool cache. -/
theorem call_tool_validates_cached_name_witness :
    (McpClient.call_tool ⟨[]⟩ (fun _ => .error "e") "missing" .null =
      ([], .error ("Tool not found: " ++ "missing"))) ∧
    ((McpClient.call_tool ⟨[⟨"t", none, .null⟩]⟩
        (fun _ => .ok ⟨[.text "hi"]⟩) "t" (.obj [])).2 =
      .ok [.text "hi"]) := by
  refine ⟨(call_tool_validates_cached_name ⟨[]⟩ (fun _ => .error "e")
    "missing" .null).1 rfl, ?_⟩
  exact ((call_tool_validates_cached_name ⟨[⟨"t", none, .null⟩]⟩
    (fun _ => .ok ⟨[.text "hi"]⟩) "t" (.obj [])).2 ⟨"t", none, .null⟩ rfl).2
    ⟨[.text "hi"]⟩ rfl

/-- C9 counterexample: registering under namespace `b` and then `a`, the
registry enumerates `a` before `b` (the map iterates in key-hash order), not
in registration order. -/
theorem registry_iteration_not_insertion_order_cex :
    ((McpClientManager.new.register_client "b" ⟨"b", ⟨[]⟩, false⟩).register_client
        "a" ⟨"a", ⟨[]⟩, false⟩).get_clients.iterate.map Prod.fst =
      ["a", "b"] ∧
    ((McpClientManager.new.register_client "b" ⟨"b", ⟨[]⟩, false⟩).register_client
        "a" ⟨"a", ⟨[]⟩, false⟩).clients.entries.map Prod.fst =
      ["b", "a"] ∧
    (["a", "b"] : List String) ≠ ["b", "a"] :=
  ⟨rfl, rfl, by decide⟩

/-- C9 (amended): enumerating the registry yields every registered server
exactly once (a permutation of the registrations) but in the hash map's
key-hash order, not in general in registration order. -/
theorem registry_iteration_permutes_entries (m : McpClientManager) :
    m.get_clients.iterate.Perm m.clients.entries ∧
    m.get_clients.iterate.Sorted (fun a b => strHash a.1 ≤ strHash b.1) := by
  constructor
  · exact List.perm_insertionSort _ _
  · haveI : IsTotal (String × ReplClient)
        (fun a b => strHash a.1 ≤ strHash b.1) :=
      ⟨fun a b => Nat.le_total _ _⟩
    haveI : IsTrans (String × ReplClient)
        (fun a b => strHash a.1 ≤ strHash b.1) :=
      ⟨fun _ _ _ hab hbc => le_trans hab hbc⟩
    exact List.sorted_insertionSort _ _

theorem serdeMapContains_insert (m : List (String × Json)) (k : String)
    (v : Json) (p : String)
    (h : serdeMapContains (serdeMapInsert m k v) p = true) :
    serdeMapContains m p = true ∨ p = k := by
  induction m with
  | nil =>
    simp [serdeMapInsert, serdeMapContains] at h
    exact Or.inr h.symm
  | cons q rest ih =>
    obtain ⟨k', v'⟩ := q
    by_cases hk : k' == k
    · simp only [serdeMapInsert, hk, if_pos] at h
      simp only [serdeMapContains, List.any_cons] at h ⊢
      rcases Bool.or_eq_true_iff.mp h with h1 | h2
      · exact Or.inr (eq_of_beq h1).symm
      · exact Or.inl (Bool.or_eq_true_iff.mpr (Or.inr h2))
    · simp only [serdeMapInsert, hk, Bool.false_eq_true, if_neg,
        not_false_iff] at h
      simp only [serdeMapContains, List.any_cons] at h ⊢
      rcases Bool.or_eq_true_iff.mp h with h1 | h2
      · exact Or.inl (Bool.or_eq_true_iff.mpr (Or.inl h1))
      · rcases ih h2 with h3 | h3
        · exact Or.inl (Bool.or_eq_true_iff.mpr (Or.inr h3))
        · exact Or.inr h3

theorem binderPositionalStep_keys (call : EvaluatedCall) (name : String)
    (i : Nat) (params params' : List (String × Json))
    (h : binderPositionalStep call name i params = .ok params') (p : String)
    (hp : serdeMapContains params' p = true) :
    serdeMapContains params p = true ∨
      (p = name ∧
        (call_opt call i ≠ none ∨ call_get_flag call p ≠ none)) := by
  unfold binderPositionalStep at h
  cases hopt : call_opt call i with
  | some value =>
    simp only [hopt] at h
    cases hconv : CallToolMod.convert_nu_value_to_json_value value with
    | ok j =>
      rw [hconv] at h
      simp only [bind, Except.bind, pure, Except.pure, Except.ok.injEq] at h
      subst h
      rcases serdeMapContains_insert params name j p hp with h1 | h1
      · exact Or.inl h1
      · exact Or.inr ⟨h1, Or.inl (by simp [hopt])⟩
    | error e =>
      rw [hconv] at h
      simp [bind, Except.bind] at h
  | none =>
    simp only [hopt] at h
    cases hflag : call_get_flag call name with
    | some value =>
      simp only [hflag] at h
      cases hconv : CallToolMod.convert_nu_value_to_json_value value with
      | ok j =>
        rw [hconv] at h
        simp only [bind, Except.bind, pure, Except.pure, Except.ok.injEq] at h
        subst h
        rcases serdeMapContains_insert params name j p hp with h1 | h1
        · exact Or.inl h1
        · refine Or.inr ⟨h1, Or.inr ?_⟩
          rw [h1, hflag]
          simp
      | error e =>
        rw [hconv] at h
        simp [bind, Except.bind] at h
    | none =>
      simp only [hflag] at h
      simp only [pure, Except.pure, Except.ok.injEq] at h
      subst h
      exact Or.inl hp

theorem binderFlagStep_keys (call : EvaluatedCall)
    (params params' : List (String × Json)) (q : String × Json)
    (h : binderFlagStep call params q = .ok params') (p : String)
    (hp : serdeMapContains params' p = true) :
    serdeMapContains params p = true ∨ call_get_flag call p ≠ none := by
  unfold binderFlagStep at h
  by_cases hc : serdeMapContains params q.1
  · simp only [hc, if_pos, pure, Except.pure, Except.ok.injEq] at h
    subst h
    exact Or.inl hp
  · simp only [hc, Bool.false_eq_true, if_neg, not_false_iff] at h
    cases hflag : call_get_flag call q.1 with
    | some value =>
      simp only [hflag] at h
      cases hconv : CallToolMod.convert_nu_value_to_json_value value with
      | ok j =>
        rw [hconv] at h
        simp only [bind, Except.bind, pure, Except.pure, Except.ok.injEq] at h
        subst h
        rcases serdeMapContains_insert params q.1 j p hp with h1 | h1
        · exact Or.inl h1
        · refine Or.inr ?_
          rw [h1, hflag]
          simp
      | error e =>
        rw [hconv] at h
        simp [bind, Except.bind] at h
    | none =>
      simp only [hflag] at h
      simp only [pure, Except.pure, Except.ok.injEq] at h
      subst h
      exact Or.inl hp

theorem binder_posloop_keys (call : EvaluatedCall)
    (pv rp : List (String × Json)) (tc : Nat) :
    ∀ (idxs : List Nat) (params0 params1 : List (String × Json)),
      idxs.foldlM (fun params i =>
        match binderPositionalName pv rp tc i with
        | some param_name => binderPositionalStep call param_name i params
        | none => pure params) params0 = .ok params1 →
      ∀ p, serdeMapContains params1 p = true →
        serdeMapContains params0 p = true ∨
        ∃ i, i ∈ idxs ∧ binderPositionalName pv rp tc i = some p ∧
          (call_opt call i ≠ none ∨ call_get_flag call p ≠ none) := by
  intro idxs
  induction idxs with
  | nil =>
    intro params0 params1 hfold p hp
    simp only [List.foldlM_nil, pure, Except.pure, Except.ok.injEq] at hfold
    subst hfold
    exact Or.inl hp
  | cons i rest ih =>
    intro params0 params1 hfold p hp
    rw [List.foldlM_cons] at hfold
    cases hstep : (match binderPositionalName pv rp tc i with
        | some param_name => binderPositionalStep call param_name i params0
        | none => pure params0) with
    | error e =>
      rw [hstep] at hfold
      simp [bind, Except.bind] at hfold
    | ok paramsMid =>
      rw [hstep] at hfold
      simp only [bind, Except.bind] at hfold
      rcases ih paramsMid params1 hfold p hp with hmid | ⟨i', hi', hname, hsup⟩
      · cases hpn : binderPositionalName pv rp tc i with
        | some param_name =>
          rw [hpn] at hstep
          rcases binderPositionalStep_keys call param_name i params0 paramsMid
              hstep p hmid with h1 | ⟨h1, h2⟩
          · exact Or.inl h1
          · exact Or.inr ⟨i, List.mem_cons_self i rest, h1 ▸ hpn, h2⟩
        | none =>
          rw [hpn] at hstep
          simp only [pure, Except.pure, Except.ok.injEq] at hstep
          subst hstep
          exact Or.inl hmid
      · exact Or.inr ⟨i', List.mem_cons_of_mem i hi', hname, hsup⟩

theorem binder_flagloop_keys (call : EvaluatedCall) :
    ∀ (props : List (String × Json)) (params0 params1 : List (String × Json)),
      props.foldlM (binderFlagStep call) params0 = .ok params1 →
      ∀ p, serdeMapContains params1 p = true →
        serdeMapContains params0 p = true ∨ call_get_flag call p ≠ none := by
  intro props
  induction props with
  | nil =>
    intro params0 params1 hfold p hp
    simp only [List.foldlM_nil, pure, Except.pure, Except.ok.injEq] at hfold
    subst hfold
    exact Or.inl hp
  | cons q rest ih =>
    intro params0 params1 hfold p hp
    rw [List.foldlM_cons] at hfold
    cases hstep : binderFlagStep call params0 q with
    | error e =>
      rw [hstep] at hfold
      simp [bind, Except.bind] at hfold
    | ok paramsMid =>
      rw [hstep] at hfold
      simp only [bind, Except.bind] at hfold
      rcases ih paramsMid params1 hfold p hp with hmid | hflag
      · exact binderFlagStep_keys call params0 paramsMid q hstep p hmid
      · exact Or.inr hflag

/-- C2 counterexample: for the two-required-parameter tool of the
specification's scenario 2, a call supplying only the first positional makes
the binder return `Ok` with an arguments object that omits the required
property `dst` - no "missing required parameter" error exists in the
binder. -/
theorem binder_missing_required_returns_ok_cex :
    map_call_args_to_tool_params ⟨[.string "a"], []⟩
      ⟨"copy", none,
        .obj [("properties",
                .obj [("src", .obj [("type", .str "string")]),
                      ("dst", .obj [("type", .str "string")])]),
              ("required", .arr [.str "src", .str "dst"])]⟩ =
      .ok [("src", .str "a")] ∧
    is_parameter_required
      ⟨"copy", none,
        .obj [("properties",
                .obj [("src", .obj [("type", .str "string")]),
                      ("dst", .obj [("type", .str "string")])]),
              ("required", .arr [.str "src", .str "dst"])]⟩ "dst" = true ∧
    serdeMapContains [("src", Json.str "a")] "dst" = false :=
  ⟨rfl, rfl, rfl⟩

/-- C2 (amended): the binder binds only what the call supplies.  Every key of
a successfully produced arguments object was read from the call, either as
the positional argument of the slot whose selected parameter name it is, or
as a flag of the same name; a required property supplied neither way is
silently omitted from the object (see the counterexample), not reported as a
typed error. -/
theorem binder_inserts_only_supplied_params (call : EvaluatedCall)
    (tool : Tool) (m : List (String × Json)) (p : String)
    (hok : map_call_args_to_tool_params call tool = .ok m)
    (hmem : serdeMapContains m p = true) :
    call_get_flag call p ≠ none ∨
    ∃ i props, get_schema_properties tool = some props ∧
      binderPositionalName (sortRequiredFirst tool props)
        ((sortRequiredFirst tool props).filter
          (fun q => is_parameter_required tool q.1))
        (sortRequiredFirst tool props).length i = some p ∧
      call_opt call i ≠ none := by
  unfold map_call_args_to_tool_params at hok
  cases hprops : get_schema_properties tool with
  | none =>
    simp only [hprops, pure, Except.pure, Except.ok.injEq] at hok
    subst hok
    simp [serdeMapContains] at hmem
  | some props =>
    simp only [hprops] at hok
    cases hpos : (List.range
        (positional_count_rules tool (sortRequiredFirst tool props))).foldlM
        (fun params i =>
          match binderPositionalName (sortRequiredFirst tool props)
              ((sortRequiredFirst tool props).filter
                (fun q => is_parameter_required tool q.1))
              (sortRequiredFirst tool props).length i with
          | some param_name => binderPositionalStep call param_name i params
          | none => pure params) [] with
    | error e =>
      rw [hpos] at hok
      simp [bind, Except.bind] at hok
    | ok paramsMid =>
      rw [hpos] at hok
      simp only [bind, Except.bind] at hok
      rcases binder_flagloop_keys call (sortRequiredFirst tool props)
          paramsMid m hok p hmem with hmid | hflag
      · rcases binder_posloop_keys call (sortRequiredFirst tool props)
            ((sortRequiredFirst tool props).filter
              (fun q => is_parameter_required tool q.1))
            (sortRequiredFirst tool props).length _ [] paramsMid hpos p hmid
          with hempty | ⟨i, _, hname, hsup⟩
        · simp [serdeMapContains] at hempty
        · rcases hsup with hposi | hflag
          · exact Or.inr ⟨i, props, rfl, hname, hposi⟩
          · exact Or.inl hflag
      · exact Or.inl hflag

/-- C2 witness: the amended theorem applied to the counterexample call; the
key `src` that the binder did bind was indeed supplied (as positional 0). -/
theorem binder_inserts_only_supplied_params_witness :
    call_get_flag ⟨[.string "a"], []⟩ "src" ≠ none ∨
    ∃ i props,
      get_schema_properties
        ⟨"copy", none,
          .obj [("properties",
                  .obj [("src", .obj [("type", .str "string")]),
                        ("dst", .obj [("type", .str "string")])]),
                ("required", .arr [.str "src", .str "dst"])]⟩ = some props ∧
      binderPositionalName (sortRequiredFirst
          ⟨"copy", none,
            .obj [("properties",
                    .obj [("src", .obj [("type", .str "string")]),
                          ("dst", .obj [("type", .str "string")])]),
                  ("required", .arr [.str "src", .str "dst"])]⟩ props)
        ((sortRequiredFirst
            ⟨"copy", none,
              .obj [("properties",
                      .obj [("src", .obj [("type", .str "string")]),
                            ("dst", .obj [("type", .str "string")])]),
                    ("required", .arr [.str "src", .str "dst"])]⟩ props).filter
          (fun q => is_parameter_required
            ⟨"copy", none,
              .obj [("properties",
                      .obj [("src", .obj [("type", .str "string")]),
                            ("dst", .obj [("type", .str "string")])]),
                    ("required", .arr [.str "src", .str "dst"])]⟩ q.1))
        (sortRequiredFirst
          ⟨"copy", none,
            .obj [("properties",
                    .obj [("src", .obj [("type", .str "string")]),
                          ("dst", .obj [("type", .str "string")])]),
                  ("required", .arr [.str "src", .str "dst"])]⟩ props).length
        i = some "src" ∧
      call_opt ⟨[.string "a"], []⟩ i ≠ none :=
  binder_inserts_only_supplied_params ⟨[.string "a"], []⟩
    ⟨"copy", none,
      .obj [("properties",
              .obj [("src", .obj [("type", .str "string")]),
                    ("dst", .obj [("type", .str "string")])]),
            ("required", .arr [.str "src", .str "dst"])]⟩
    [("src", .str "a")] "src" rfl rfl

theorem length_filter_bool_not {α : Type} (l : List α) (f : α → Bool) :
    (l.filter f).length + (l.filter (fun a => !f a)).length = l.length := by
  induction l with
  | nil => rfl
  | cons x xs ih =>
    cases hfx : f x <;> simp [List.filter, hfx] <;> omega

theorem isEmpty_eq_length_beq {α : Type} (l : List α) :
    l.isEmpty = (l.length == 0) := by
  cases l <;> rfl

theorem positional_count_rules_eq_formula (tool : Tool)
    (l : List (String × Json)) :
    positional_count_rules tool l =
      if l.length = 1 then 1
      else if (l.filter (fun p => is_parameter_required tool p.1)).length = 2
        then 2
      else if (l.filter (fun p => is_parameter_required tool p.1)).length = 1 ∧
          1 ≤ l.length -
            (l.filter (fun p => is_parameter_required tool p.1)).length
        then 1
      else 0 := by
  have hRO := length_filter_bool_not l (fun p => is_parameter_required tool p.1)
  unfold positional_count_rules
  simp only [isEmpty_eq_length_beq, Bool.and_eq_true, beq_iff_eq,
    Bool.not_eq_true', beq_eq_false_iff_ne]
  split_ifs <;> omega

/-- C3: in both places it is computed - signature generation (on the
properties in schema order) and the binder (on the required-first sorted
properties) - the Schema Mapper's positional count equals: 1 if N = 1; else
2 if R = 2; else 1 if R = 1 and O = N - R is at least 1; else 0, where N is
the property count and R the count of properties listed in `required`. -/
theorem positional_count_formula (tool : Tool)
    (props : List (String × Json))
    (h : get_schema_properties tool = some props) :
    positional_count_rules tool props =
      (if props.length = 1 then 1
       else if (props.filter
           (fun p => is_parameter_required tool p.1)).length = 2 then 2
       else if (props.filter
             (fun p => is_parameter_required tool p.1)).length = 1 ∧
           1 ≤ props.length - (props.filter
             (fun p => is_parameter_required tool p.1)).length then 1
       else 0) ∧
    positional_count_rules tool (sortRequiredFirst tool props) =
      (if props.length = 1 then 1
       else if (props.filter
           (fun p => is_parameter_required tool p.1)).length = 2 then 2
       else if (props.filter
             (fun p => is_parameter_required tool p.1)).length = 1 ∧
           1 ≤ props.length - (props.filter
             (fun p => is_parameter_required tool p.1)).length then 1
       else 0) := by
  have hperm : (sortRequiredFirst tool props).Perm props :=
    List.perm_insertionSort _ _
  have hN : (sortRequiredFirst tool props).length = props.length :=
    hperm.length_eq
  have hR : ((sortRequiredFirst tool props).filter
      (fun p => is_parameter_required tool p.1)).length =
      (props.filter (fun p => is_parameter_required tool p.1)).length :=
    (hperm.filter _).length_eq
  refine ⟨positional_count_rules_eq_formula tool props, ?_⟩
  rw [positional_count_rules_eq_formula tool (sortRequiredFirst tool props),
    hN, hR]

/-- C3 witness: the two-required-parameter tool of scenario 2 has positional
count 2 on both paths. -/
theorem positional_count_formula_witness :
    positional_count_rules
      ⟨"copy", none,
        .obj [("properties",
                .obj [("src", .obj [("type", .str "string")]),
                      ("dst", .obj [("type", .str "string")])]),
              ("required", .arr [.str "src", .str "dst"])]⟩
      [("src", .obj [("type", .str "string")]),
       ("dst", .obj [("type", .str "string")])] = 2 ∧
    positional_count_rules
      ⟨"copy", none,
        .obj [("properties",
                .obj [("src", .obj [("type", .str "string")]),
                      ("dst", .obj [("type", .str "string")])]),
              ("required", .arr [.str "src", .str "dst"])]⟩
      (sortRequiredFirst
        ⟨"copy", none,
          .obj [("properties",
                  .obj [("src", .obj [("type", .str "string")]),
                        ("dst", .obj [("type", .str "string")])]),
                ("required", .arr [.str "src", .str "dst"])]⟩
        [("src", .obj [("type", .str "string")]),
         ("dst", .obj [("type", .str "string")])]) = 2 := by
  have h := positional_count_formula
    ⟨"copy", none,
      .obj [("properties",
              .obj [("src", .obj [("type", .str "string")]),
                    ("dst", .obj [("type", .str "string")])]),
            ("required", .arr [.str "src", .str "dst"])]⟩
    [("src", .obj [("type", .str "string")]),
     ("dst", .obj [("type", .str "string")])] rfl
  simpa using h

mutual

theorem convAgreeValueAux (v : NuValue) (h : rangeFree v = true) :
    CallToolMod.convert_nu_value_to_json_value v =
      convert_nu_value_to_json_value v := by
  match v with
  | .bool val => rfl
  | .int val => rfl
  | .float val => rfl
  | .filesize val => rfl
  | .duration val => rfl
  | .date rendered => rfl
  | .string val => rfl
  | .glob val => rfl
  | .range rendered => simp [rangeFree] at h
  | .binary val => rfl
  | .cellPath members => rfl
  | .nothing => rfl
  | .closure tag => rfl
  | .custom tag => rfl
  | .error err => rfl
  | .list vals =>
    have hl : rangeFreeList vals = true := by simpa [rangeFree] using h
    simp only [CallToolMod.convert_nu_value_to_json_value,
      convert_nu_value_to_json_value]
    rw [convAgreeListAux vals hl]
  | .record fields =>
    have hf : rangeFreeFields fields = true := by simpa [rangeFree] using h
    simp only [CallToolMod.convert_nu_value_to_json_value,
      convert_nu_value_to_json_value]
    rw [convAgreeFieldsAux [] fields hf]

theorem convAgreeListAux (vs : List NuValue) (h : rangeFreeList vs = true) :
    CallToolMod.json_list vs = json_list vs := by
  match vs with
  | [] => rfl
  | v :: rest =>
    have hsplit : rangeFree v = true ∧ rangeFreeList rest = true := by
      simpa [rangeFreeList, Bool.and_eq_true] using h
    simp only [CallToolMod.json_list, json_list]
    rw [convAgreeValueAux v hsplit.1, convAgreeListAux rest hsplit.2]

theorem convAgreeFieldsAux (acc : List (String × Json))
    (fs : List (String × NuValue)) (h : rangeFreeFields fs = true) :
    CallToolMod.nuRecordToJsonMap acc fs = nuRecordToJsonMap acc fs := by
  match fs with
  | [] => rfl
  | (k, v) :: rest =>
    have hv : rangeFree v = true := by
      simp [rangeFreeFields, Bool.and_eq_true] at h
      exact h.1
    have hr : rangeFreeFields rest = true := by
      simp [rangeFreeFields, Bool.and_eq_true] at h
      exact h.2
    simp only [CallToolMod.nuRecordToJsonMap, nuRecordToJsonMap]
    rw [convAgreeValueAux v hv]
    cases convert_nu_value_to_json_value v with
    | ok j => exact convAgreeFieldsAux (serdeMapInsert acc k j) rest hr
    | error e => rfl

end

/-- C10 counterexample: on a Range value the two implementations disagree:
utils.rs returns the rendered string, call_tool.rs returns `null`; so they
neither return the same JSON value nor both error. -/
theorem conversions_differ_on_range_cex :
    convert_nu_value_to_json_value (.range "1..5") = .ok (.str "1..5") ∧
    CallToolMod.convert_nu_value_to_json_value (.range "1..5") = .ok .null ∧
    ¬((∃ j, convert_nu_value_to_json_value (.range "1..5") = .ok j ∧
        CallToolMod.convert_nu_value_to_json_value (.range "1..5") = .ok j) ∨
      ((convert_nu_value_to_json_value (.range "1..5")).isOk = false ∧
        (CallToolMod.convert_nu_value_to_json_value
          (.range "1..5")).isOk = false)) := by
  refine ⟨rfl, rfl, ?_⟩
  rintro (⟨j, h1, h2⟩ | ⟨h1, h2⟩)
  · simp only [convert_nu_value_to_json_value,
      CallToolMod.convert_nu_value_to_json_value, Except.ok.injEq] at h1 h2
    rw [← h1] at h2
    exact Json.noConfusion h2
  · simp [convert_nu_value_to_json_value, Except.isOk, Except.toBool] at h1

/-- C10 (amended): on every shell value containing no Range, the two
independent shell-to-JSON implementations (utils.rs and call_tool.rs) return
identical results - the same JSON value or the same error. -/
theorem conversions_agree_off_range (v : NuValue)
    (h : rangeFree v = true) :
    CallToolMod.convert_nu_value_to_json_value v =
      convert_nu_value_to_json_value v :=
  convAgreeValueAux v h

/-- C10 witness: the amended theorem applied to a Range-free list value. -/
theorem conversions_agree_off_range_witness :
    rangeFree (.list [.int 3, .string "x"]) = true ∧
    CallToolMod.convert_nu_value_to_json_value (.list [.int 3, .string "x"]) =
      convert_nu_value_to_json_value (.list [.int 3, .string "x"]) :=
  ⟨rfl, conversions_agree_off_range (.list [.int 3, .string "x"]) rfl⟩

theorem serdeMapInsert_not_contains (acc : List (String × Json)) (k : String)
    (v : Json) (h : serdeMapContains acc k = false) :
    serdeMapInsert acc k v = acc ++ [(k, v)] := by
  induction acc with
  | nil => rfl
  | cons q rest ih =>
    obtain ⟨k', v'⟩ := q
    simp only [serdeMapContains, List.any_cons, Bool.or_eq_false_iff] at h
    simp only [serdeMapInsert, h.1, Bool.false_eq_true, if_neg,
      not_false_iff, List.cons_append, List.cons.injEq, true_and]
    exact ih h.2

theorem serdeMapContains_append_single (acc : List (String × Json))
    (k p : String) (j : Json) :
    serdeMapContains (acc ++ [(k, j)]) p =
      (serdeMapContains acc p || (k == p)) := by
  simp [serdeMapContains, List.any_append]

mutual

theorem rtValAux (v : Json) (hwf : JsonWf v = true) :
    ∃ s, convert_json_value_to_nu_value v = .ok s ∧
      ∃ j, convert_nu_value_to_json_value s = .ok j ∧
        convert_json_value_to_nu_value j = .ok s := by
  match v with
  | .null => exact ⟨.nothing, rfl, .null, rfl, rfl⟩
  | .bool b => exact ⟨.bool b, rfl, .bool b, rfl, rfl⟩
  | .str s => exact ⟨.string s, rfl, .str s, rfl, rfl⟩
  | .num n =>
    match n with
    | .posInt m =>
      by_cases hm : (m : Int) ≤ i64Max
      · refine ⟨.int (m : Int), ?_, .num (.posInt m), ?_, ?_⟩
        · simp [convert_json_value_to_nu_value, jNumberAsI64, hm]
        · simp [convert_nu_value_to_json_value, jNumberFromInt,
            Int.toNat_natCast]
        · simp [convert_json_value_to_nu_value, jNumberAsI64, hm]
      · refine ⟨.float (f64OfInt (m : Int)), ?_, .num (.float (m : ℚ)), ?_, ?_⟩
        · simp [convert_json_value_to_nu_value, jNumberAsI64, hm, jNumberAsF64]
        · simp [convert_nu_value_to_json_value, serdeNumberFromF64, f64OfInt]
        · simp [convert_json_value_to_nu_value, jNumberAsI64, jNumberAsF64,
            f64OfInt]
    | .negInt m =>
      simp only [JsonWf, JNumber.wf, Bool.and_eq_true, decide_eq_true_eq] at hwf
      refine ⟨.int m, ?_, .num (.negInt m), ?_, ?_⟩
      · simp [convert_json_value_to_nu_value, jNumberAsI64]
      · simp [convert_nu_value_to_json_value, jNumberFromInt, hwf.2]
      · simp [convert_json_value_to_nu_value, jNumberAsI64]
    | .float q =>
      refine ⟨.float (.finite q), ?_, .num (.float q), ?_, ?_⟩
      · simp [convert_json_value_to_nu_value, jNumberAsI64, jNumberAsF64]
      · simp [convert_nu_value_to_json_value, serdeNumberFromF64]
      · simp [convert_json_value_to_nu_value, jNumberAsI64, jNumberAsF64]
  | .arr elts =>
    have hl : JsonListWf elts = true := by simpa [JsonWf] using hwf
    obtain ⟨ss, hss, js, hjs, hback⟩ := rtListAux elts hl
    refine ⟨.list ss, ?_, .arr js, ?_, ?_⟩
    · simp [convert_json_value_to_nu_value, hss]
    · simp [convert_nu_value_to_json_value, hjs]
    · simp [convert_json_value_to_nu_value, hback]
  | .obj fields =>
    have hsplit : keysDistinct (fields.map Prod.fst) = true ∧
        JsonFieldsWf fields = true := by
      simpa [JsonWf, Bool.and_eq_true] using hwf
    obtain ⟨ns, js, hns, _hkeysNs, _hkeysJs, hfold, hback⟩ :=
      rtFieldsAux fields hsplit.2 hsplit.1
    refine ⟨.record ns, ?_, .obj js, ?_, ?_⟩
    · simp [convert_json_value_to_nu_value, hns]
    · have hzero := hfold [] (fun k _ => rfl)
      simp [convert_nu_value_to_json_value, hzero]
    · simp [convert_json_value_to_nu_value, hback]

theorem rtListAux (elts : List Json) (hwf : JsonListWf elts = true) :
    ∃ ss, convert_json_list_to_nu elts = .ok ss ∧
      ∃ js, json_list ss = .ok js ∧ convert_json_list_to_nu js = .ok ss := by
  match elts with
  | [] => exact ⟨[], rfl, [], rfl, rfl⟩
  | x :: xs =>
    have hsplit : JsonWf x = true ∧ JsonListWf xs = true := by
      simpa [JsonListWf, Bool.and_eq_true] using hwf
    obtain ⟨s, hs, j, hj, hbx⟩ := rtValAux x hsplit.1
    obtain ⟨ss, hss, js, hjs, hbxs⟩ := rtListAux xs hsplit.2
    refine ⟨s :: ss, ?_, j :: js, ?_, ?_⟩
    · simp [convert_json_list_to_nu, hs, hss, bind, Except.bind, pure,
        Except.pure]
    · simp [json_list, hj, hjs, bind, Except.bind, pure, Except.pure]
    · simp [convert_json_list_to_nu, hbx, hbxs, bind, Except.bind, pure,
        Except.pure]

theorem rtFieldsAux (fs : List (String × Json))
    (hwf : JsonFieldsWf fs = true)
    (hdist : keysDistinct (fs.map Prod.fst) = true) :
    ∃ ns js,
      convert_json_fields_to_nu fs = .ok ns ∧
      ns.map Prod.fst = fs.map Prod.fst ∧
      js.map Prod.fst = fs.map Prod.fst ∧
      (∀ acc, (∀ k, k ∈ fs.map Prod.fst → serdeMapContains acc k = false) →
        nuRecordToJsonMap acc ns = .ok (acc ++ js)) ∧
      convert_json_fields_to_nu js = .ok ns := by
  match fs with
  | [] =>
    exact ⟨[], [], rfl, rfl, rfl, fun acc _ => by simp [nuRecordToJsonMap],
      rfl⟩
  | (k, v) :: rest =>
    have hsplit : JsonWf v = true ∧ JsonFieldsWf rest = true := by
      simpa [JsonFieldsWf, Bool.and_eq_true] using hwf
    have hdsplit : (rest.map Prod.fst).contains k = false ∧
        keysDistinct (rest.map Prod.fst) = true := by
      simpa [keysDistinct, Bool.and_eq_true, Bool.not_eq_true'] using hdist
    obtain ⟨s, hs, j, hj, hbv⟩ := rtValAux v hsplit.1
    obtain ⟨ns, js, hns, hkeysNs, hkeysJs, hfold, hbrest⟩ :=
      rtFieldsAux rest hsplit.2 hdsplit.2
    refine ⟨(k, s) :: ns, (k, j) :: js, ?_, ?_, ?_, ?_, ?_⟩
    · simp [convert_json_fields_to_nu, hs, hns, bind, Except.bind, pure,
        Except.pure]
    · simp [hkeysNs]
    · simp [hkeysJs]
    · intro acc hacc
      have hck : serdeMapContains acc k = false :=
        hacc k (by simp)
      have hstep : nuRecordToJsonMap acc ((k, s) :: ns) =
          nuRecordToJsonMap (serdeMapInsert acc k j) ns := by
        simp [nuRecordToJsonMap, hj]
      rw [hstep, serdeMapInsert_not_contains acc k j hck]
      have hacc' : ∀ k', k' ∈ rest.map Prod.fst →
          serdeMapContains (acc ++ [(k, j)]) k' = false := by
        intro k' hk'
        rw [serdeMapContains_append_single]
        have h1 : serdeMapContains acc k' = false :=
          hacc k' (by simp [hk'])
        have h2 : (k == k') = false := by
          refine beq_eq_false_iff_ne.mpr ?_
          intro hkk
          have hcont : (rest.map Prod.fst).contains k' = true := by
            rw [List.contains_eq_any_beq]
            exact List.any_eq_true.mpr ⟨k', hk', by simp⟩
          rw [← hkk] at hcont
          rw [hdsplit.1] at hcont
          exact Bool.false_ne_true hcont
        simp [h1, h2]
      rw [hfold (acc ++ [(k, j)]) hacc']
      simp
    · simp [convert_json_fields_to_nu, hbv, hbrest, bind, Except.bind, pure,
        Except.pure]

end

/-- C4: for every representable JSON value, converting to a shell value,
back to JSON, and to a shell value again gives the same shell value as
converting once: `to_shell (to_json (to_shell v)) = to_shell v`. -/
theorem value_bridge_roundtrip (v : Json) (hwf : JsonWf v = true) :
    (do
      let s ← convert_json_value_to_nu_value v
      let j ← convert_nu_value_to_json_value s
      convert_json_value_to_nu_value j) =
      convert_json_value_to_nu_value v := by
  obtain ⟨s, hs, j, hj, hback⟩ := rtValAux v hwf
  rw [hs]
  simp [bind, Except.bind, hs, hj, hback]

/-- C4 witness: the round trip at the record of scenario 4,
`{a: 1, b: [true, "x"], c: null}` as JSON. -/
theorem value_bridge_roundtrip_witness :
    JsonWf (.obj [("a", .num (.posInt 1)),
                  ("b", .arr [.bool true, .str "x"]),
                  ("c", .null)]) = true ∧
    (do
      let s ← convert_json_value_to_nu_value
        (.obj [("a", .num (.posInt 1)),
               ("b", .arr [.bool true, .str "x"]),
               ("c", .null)])
      let j ← convert_nu_value_to_json_value s
      convert_json_value_to_nu_value j) =
      convert_json_value_to_nu_value
        (.obj [("a", .num (.posInt 1)),
               ("b", .arr [.bool true, .str "x"]),
               ("c", .null)]) :=
  ⟨rfl, value_bridge_roundtrip
    (.obj [("a", .num (.posInt 1)),
           ("b", .arr [.bool true, .str "x"]),
           ("c", .null)]) rfl⟩
